import Mathlib

/-!
# WorldNews (`streamlit_app.py`) — verification of the design claims

A shallow embedding of the algorithmic core of `src/streamlit_app.py`:

* catalog loading and country-name normalization (`load_data`,
  `normalize_country`, lines 17–33),
* the per-country feed statistics loop (lines 97–134), including its
  `try`/`except Exception: pass` failure handling, the `source_counts`
  dictionary and the stable presentation sort,
* the map-click point resolution loop and selection update (lines 144–153)
  together with the select-box explicit selection (lines 84–95).

Timestamps are embedded as `Int` seconds since the epoch; the UTC calendar
date of a timestamp is its floor division by 86400.  The external feed
fetch/parse (`feedparser.parse`) and the shapely polygon containment test
(`geom.contains`) are embedded as data carried by the inputs: an outlet
carries `Option (List Entry)` (`none` = the fetch/parse raises), an entry
carries `Option Int` for its parsed publish instant (`none` = the
`published_parsed` value cannot be converted to a timestamp, so
`time.mktime`/`fromtimestamp` raises), and a boundary feature carries its
containment predicate as a boolean function of the point.
-/

/-- `normalize_country` (line 32–33): `name.strip().lower()` — drop
whitespace from both ends, then lowercase.  The same normalization is
applied column-wise in `load_data` (line 21).  (Spelled out on the
character list so that it evaluates by kernel reduction.) -/
def normalize_country (name : String) : String :=
  ⟨(((name.data.dropWhile Char.isWhitespace).reverse.dropWhile
      Char.isWhitespace).reverse).map Char.toLower⟩

/-- One row of the outlet catalog CSV.  A missing cell (pandas `NaN`) is
`none`. -/
structure Row where
  media_name : Option String
  country : Option String
  newsfeed_url : Option String
deriving DecidableEq, Repr

/-- `load_data` (lines 18–22): reads the rows and normalizes the `country`
column (`df['country'].str.strip().str.lower()`).  No cell is validated and
no row is rejected. -/
def load_data (rows : List Row) : List Row :=
  rows.map (fun r => { r with country := r.country.map normalize_country })

/-- `sorted(news_df['country'].dropna().unique())` (line 86): the distinct
non-missing countries of the loaded catalog.  (The `sorted` only fixes the
display order of the select box and is irrelevant to membership, which is
all the claims use.) -/
def available_countries (rows : List Row) : List String :=
  (rows.filterMap (fun r => r.country)).dedup

/-- One feed entry as the statistics loop (lines 115–121) observes it:
`hasPub` is `hasattr(entry, 'published_parsed')`; when `hasPub` is true,
`pubVal = some t` means `datetime.fromtimestamp(time.mktime(entry.published_parsed))`
yields the instant `t`, and `pubVal = none` means that conversion raises
(e.g. `published_parsed` is `None` or out of range). -/
structure Entry where
  hasPub : Bool
  pubVal : Option Int
deriving DecidableEq, Repr

/-- One outlet of the selected country as the loop of lines 109–127 sees it:
its `media_name` cell and the outcome of `feedparser.parse(row['newsfeed_url'])`
(`none` = the fetch/parse raises inside the `try`). -/
structure Outlet where
  media_name : String
  fetched : Option (List Entry)
deriving DecidableEq, Repr

/-- Line 118: `pub_time > last_hour` where `last_hour = utcnow() - 1 hour`. -/
def entryInHour (now : Int) (e : Entry) : Bool :=
  e.hasPub && (match e.pubVal with
    | some t => decide (now - 3600 < t)
    | none => false)

/-- Line 120: `pub_time.date() == today` where `today = utcnow().date()`. -/
def entryToday (now : Int) (e : Entry) : Bool :=
  e.hasPub && (match e.pubVal with
    | some t => decide (t.fdiv 86400 = now.fdiv 86400)
    | none => false)

/-- The inner entry loop (lines 115–121) with its running `count_hour` /
`count_day`.  Returns `none` when an entry raises (a `published_parsed`
attribute whose value cannot be converted, line 117), aborting the whole
outlet. -/
def procEntriesAux (now : Int) : List Entry → Nat → Nat → Option (Nat × Nat)
  | [], ch, cd => some (ch, cd)
  | e :: rest, ch, cd =>
    if e.hasPub then
      match e.pubVal with
      | none => none
      | some t =>
        procEntriesAux now rest
          (ch + (if now - 3600 < t then 1 else 0))
          (cd + (if t.fdiv 86400 = now.fdiv 86400 then 1 else 0))
    else
      procEntriesAux now rest ch cd

/-- The entry loop started at `count_hour = count_day = 0` (lines 112–113). -/
def procEntries (now : Int) (es : List Entry) : Option (Nat × Nat) :=
  procEntriesAux now es 0 0

/-- The body of the `try` for one outlet (lines 110–121): `none` exactly when
the fetch/parse or an entry conversion raises, otherwise the outlet's
`(count_hour, count_day)`. -/
def processOutlet (now : Int) (o : Outlet) : Option (Nat × Nat) :=
  match o.fetched with
  | none => none
  | some es => procEntries now es

/-- Python dict assignment `d[k] = v`: overwrite in place if the key exists
(keeping its position), else append. -/
def dictInsert {α : Type} (k : String) (v : α) :
    List (String × α) → List (String × α)
  | [] => [(k, v)]
  | (k2, v2) :: rest =>
    if k2 = k then (k2, v) :: rest else (k2, v2) :: dictInsert k v rest

/-- Python dict lookup `d[k]` / `d.get(k)`. -/
def dictLookup {α : Type} (k : String) : List (String × α) → Option α
  | [] => none
  | (k2, v) :: rest => if k2 = k then some v else dictLookup k rest

/-- The aggregate the statistics column computes (lines 105–107 and 123–125):
`news_last_hour`, `news_today`, and the insertion-ordered `source_counts`
dict. -/
structure Stats where
  news_last_hour : Nat
  news_today : Nat
  source_counts : List (String × Nat)
deriving DecidableEq, Repr

/-- The outer outlet loop (lines 109–127) threading the running totals: a
successfully processed outlet adds its counts to the totals and assigns
`source_counts[row['media_name']] = count_day`; an outlet that raises is
skipped by `except Exception: pass` (lines 126–127), leaving the state
untouched. -/
def compute_stats_aux (now : Int) : List Outlet → Stats → Stats
  | [], s => s
  | o :: rest, s =>
    match processOutlet now o with
    | none => compute_stats_aux now rest s
    | some (ch, cd) =>
      compute_stats_aux now rest
        ⟨s.news_last_hour + ch, s.news_today + cd,
         dictInsert o.media_name cd s.source_counts⟩

/-- `ComputeStats` for one country: the loop started from zero totals and an
empty `source_counts` dict (lines 105–107). -/
def compute_stats (now : Int) (outlets : List Outlet) : Stats :=
  compute_stats_aux now outlets ⟨0, 0, []⟩

/-- Stable insertion of a `(source, count)` pair in front of the first
element with a not-larger count: the list form of Python's stable
`sorted(..., key=lambda x: -x[1])` (line 133). -/
def insertByCount (p : String × Nat) :
    List (String × Nat) → List (String × Nat)
  | [] => [p]
  | q :: rest => if q.2 ≤ p.2 then p :: q :: rest else q :: insertByCount p rest

/-- Stable sort by count descending — the semantics of
`sorted(source_counts.items(), key=lambda x: -x[1])` (line 133): Python's
sort is stable and the key orders by count descending only, so ties keep
dict insertion order. -/
def sortByCountDesc : List (String × Nat) → List (String × Nat)
  | [] => []
  | p :: rest => insertByCount p (sortByCountDesc rest)

/-- The presentation order of the per-source list (lines 133–134). -/
def presentSources (s : Stats) : List (String × Nat) :=
  sortByCountDesc s.source_counts

/-- The today-count of the last outlet in the list that carries the given
media name and whose processing succeeds — the value Python's
`source_counts[name] = count_day` leaves in the dict after the loop
(overwrite semantics: a later successful assignment replaces an earlier
one; a raising outlet never reaches its assignment). -/
def lastSourceCount (now : Int) (name : String) : List Outlet → Option Nat
  | [] => none
  | o :: rest =>
    match lastSourceCount now name rest with
    | some v => some v
    | none =>
      if o.media_name = name then (processOutlet now o).map (fun r => r.2)
      else none

/-- A click position, `Point(lng, lat)` (line 145), with coordinates
embedded as integers (the geometry itself is abstracted into the feature's
containment predicate, so the coordinate type is immaterial). -/
abbrev Pt := Int × Int

/-- One feature of the boundary GeoJSON as the click loop (lines 147–151)
observes it: its `properties.name` and the shapely containment test
`shape(feature['geometry']).contains(point)`, embedded as a boolean
predicate on points. -/
structure Feature where
  name : String
  contains : Pt → Bool

/-- The click-resolution loop (lines 146–151): scan the features in dataset
order, stop at the first whose geometry contains the point, and return its
normalized name; `none` when no feature contains the point. -/
def resolvePoint (feats : List Feature) (p : Pt) : Option String :=
  (feats.find? (fun f => f.contains p)).map (fun f => normalize_country f.name)

/-- Lines 144–153: the click handler's effect on
`st.session_state.selected_country`.  `if selected:` is Python truthiness:
`None` and the empty string both leave the state unchanged. -/
def selectFromPoint (feats : List Feature) (st0 : Option String) (p : Pt) :
    Option String :=
  match resolvePoint feats p with
  | none => st0
  | some k => if k = "" then st0 else some k

/-- Lines 39–40: `st.session_state.selected_country = None` on first run. -/
def initial_selected_country : Option String := none

/-- Lines 87–95: the select box returns a `choice` drawn from
`available_countries`; the state is overwritten whenever it differs. -/
def select_explicit (st0 : Option String) (choice : String) : Option String :=
  if st0 = some choice then st0 else some choice

/-- The normalized names of the boundary features, i.e. every value the
click handler can ever write. -/
def boundary_names (feats : List Feature) : List String :=
  feats.map (fun f => normalize_country f.name)

/-- The session states reachable from the initial `None` by any interleaving
of select-box choices (always drawn from `available_countries`, lines
87–95) and map clicks (lines 144–153). -/
inductive Reach (rows : List Row) (feats : List Feature) : Option String → Prop
  | start : Reach rows feats initial_selected_country
  | explicit {st0 : Option String} {choice : String}
      (hc : choice ∈ available_countries rows)
      (hr : Reach rows feats st0) :
      Reach rows feats (select_explicit st0 choice)
  | click {st0 : Option String} {p : Pt}
      (hr : Reach rows feats st0) :
      Reach rows feats (selectFromPoint feats st0 p)

/-- Modelled from the spec: `BoundaryIndex.Centroid(key)` — "returns the
precomputed area-weighted centroid for the key, or a fixed global fallback
point `(20, 0)` if the key is unknown".  The source contains no per-key
centroid query; only the fallback point survives in it, as the constant map
center `folium.Map(location=[20, 0])` (line 43).  The precomputed table is
therefore taken as an input. -/
def centroid (table : List (String × (Int × Int))) (k : String) : Int × Int :=
  match dictLookup k table with
  | some c => c
  | none => (20, 0)

example : compute_stats 0 [⟨"x", some [⟨true, some 0⟩]⟩] =
    ⟨1, 1, [("x", 1)]⟩ := by decide

example : compute_stats 0
    [⟨"x", some [⟨true, some 0⟩]⟩, ⟨"x", some [⟨true, some 0⟩, ⟨true, some 0⟩]⟩] =
    ⟨3, 3, [("x", 2)]⟩ := by decide

example : load_data [⟨some "m", some " Fr ", none⟩] =
    [⟨some "m", some "fr", none⟩] := by decide

example : resolvePoint [⟨"Ocean", fun _ => false⟩, ⟨"France", fun _ => true⟩]
    (0, 0) = some "france" := by decide

example : selectFromPoint [⟨"Nowhere", fun _ => false⟩] (some "peru") (3, 4) =
    some "peru" := by decide

example : select_explicit none "chile" = some "chile" := by decide

example : centroid [("france", (46, 2))] "atlantis" = (20, 0) := by decide

example : presentSources ⟨0, 3, [("b", 1), ("a", 2), ("c", 1)]⟩ =
    [("a", 2), ("b", 1), ("c", 1)] := by decide

/-! ## Dictionary lemmas -/

lemma dictLookup_dictInsert_self {α : Type} (k : String) (v : α)
    (l : List (String × α)) : dictLookup k (dictInsert k v l) = some v := by
  induction l with
  | nil => simp [dictInsert, dictLookup]
  | cons q rest ih =>
    obtain ⟨k2, v2⟩ := q
    by_cases h : k2 = k
    · simp [dictInsert, dictLookup, h]
    · simp [dictInsert, dictLookup, h, ih]

lemma dictLookup_dictInsert_ne {α : Type} (k k2 : String) (v : α)
    (l : List (String × α)) (h : k2 ≠ k) :
    dictLookup k (dictInsert k2 v l) = dictLookup k l := by
  induction l with
  | nil => simp [dictInsert, dictLookup, h]
  | cons q rest ih =>
    obtain ⟨k3, v3⟩ := q
    by_cases h3 : k3 = k2
    · subst h3; simp [dictInsert, dictLookup, h]
    · simp only [dictInsert, if_neg h3]
      by_cases hk : k3 = k
      · simp [dictLookup, hk]
      · simp [dictLookup, hk, ih]

/-- What the outlet loop leaves in `source_counts` under any key: the
today-count of the last successfully processed outlet with that media name,
falling back to whatever the dict already held. -/
lemma dictLookup_compute_stats_aux (now : Int) (name : String)
    (outlets : List Outlet) (s : Stats) :
    dictLookup name (compute_stats_aux now outlets s).source_counts =
      match lastSourceCount now name outlets with
      | some v => some v
      | none => dictLookup name s.source_counts := by
  induction outlets generalizing s with
  | nil => simp [compute_stats_aux, lastSourceCount]
  | cons o rest ih =>
    cases hp : processOutlet now o with
    | none =>
      simp only [compute_stats_aux, hp, lastSourceCount]
      rw [ih]
      cases hl : lastSourceCount now name rest <;> simp [hp]
    | some r =>
      obtain ⟨ch, cd⟩ := r
      simp only [compute_stats_aux, hp, lastSourceCount]
      rw [ih]
      cases hl : lastSourceCount now name rest
      · by_cases hn : o.media_name = name
        · subst hn; simp [hp, dictLookup_dictInsert_self]
        · simp [hp, hn, dictLookup_dictInsert_ne _ _ _ _ hn]
      · simp

/-! ## C1 — per-source counts on duplicate media names -/

/-- C1, counterexample.  Two outlets of one country share the media name
`"x"`; their individual today-counts are 1 and 2.  The claim says the
per-source mapping holds their sum 3; the dict assignment
`source_counts[row['media_name']] = count_day` (line 125) overwrites, so the
mapping holds 2, the count of the last outlet processed. -/
theorem C1_counterexample :
    processOutlet 0 ⟨"x", some [⟨true, some 0⟩]⟩ = some (1, 1)
    ∧ processOutlet 0 ⟨"x", some [⟨true, some 0⟩, ⟨true, some 0⟩]⟩ =
        some (2, 2)
    ∧ dictLookup "x" (compute_stats 0
        [⟨"x", some [⟨true, some 0⟩]⟩,
         ⟨"x", some [⟨true, some 0⟩, ⟨true, some 0⟩]⟩]).source_counts = some 2
    ∧ (2 : Nat) ≠ 1 + 2 := by decide

/-- C1, amended: for every media name, `ComputeStats`'s per-source mapping
holds the today-count of the **last** outlet with that name whose processing
succeeded (dict overwrite semantics), not the sum over same-named
outlets. -/
theorem C1_overwrite_semantics (now : Int) (outlets : List Outlet)
    (name : String) :
    dictLookup name (compute_stats now outlets).source_counts =
      lastSourceCount now name outlets := by
  rw [compute_stats, dictLookup_compute_stats_aux]
  cases lastSourceCount now name outlets <;> simp [dictLookup]

/-! ## C2 — the hour and today windows -/

/-- The entry loop run from arbitrary accumulators counts exactly the
entries satisfying the two window predicates, provided no entry raises. -/
lemma procEntriesAux_counts (now : Int) (es : List Entry)
    (h : ∀ e ∈ es, e.hasPub = true → e.pubVal ≠ none) (ch cd : Nat) :
    procEntriesAux now es ch cd =
      some (ch + es.countP (entryInHour now),
            cd + es.countP (entryToday now)) := by
  induction es generalizing ch cd with
  | nil => simp [procEntriesAux]
  | cons e rest ih =>
    have hrest : ∀ x ∈ rest, x.hasPub = true → x.pubVal ≠ none :=
      fun x hx => h x (List.mem_cons_of_mem e hx)
    by_cases hp : e.hasPub
    · cases hv : e.pubVal with
      | none => exact absurd hv (h e (List.mem_cons_self e rest) hp)
      | some t =>
        simp only [procEntriesAux, hp, if_true, hv]
        rw [ih hrest]
        by_cases h1 : now - 3600 < t <;>
          by_cases h2 : t.fdiv 86400 = now.fdiv 86400 <;>
            simp [List.countP_cons, entryInHour, entryToday, hp, hv, h1, h2] <;>
              omega
    · simp only [procEntriesAux, hp, if_false, Bool.false_eq_true]
      rw [ih hrest]
      simp [List.countP_cons, entryInHour, entryToday, hp]

/-- C2, confirmed.  When no entry of the feed raises, the outlet's counters
are exactly: hour counter = number of entries with a known publish time
`t` such that `now - t < 1 hour` (3600 s); today counter = number of entries
with a known publish time on the same UTC calendar date as `now`; and an
entry without a publish time (`hasPub = false`) satisfies neither window
predicate, so it is counted toward neither.  Consequently `ComputeStats` for
a single outlet carrying this feed reports exactly those two counter
values. -/
theorem C2_time_windows (now : Int) (es : List Entry)
    (h : ∀ e ∈ es, e.hasPub = true → e.pubVal ≠ none) :
    procEntries now es =
      some (es.countP (entryInHour now), es.countP (entryToday now))
    ∧ (∀ e : Entry, ∀ t : Int, e.hasPub = true → e.pubVal = some t →
        ((entryInHour now e = true ↔ now - t < 3600)
         ∧ (entryToday now e = true ↔ t.fdiv 86400 = now.fdiv 86400)))
    ∧ (∀ e : Entry, e.hasPub = false →
        entryInHour now e = false ∧ entryToday now e = false)
    ∧ (∀ name : String, compute_stats now [⟨name, some es⟩] =
        ⟨es.countP (entryInHour now), es.countP (entryToday now),
         [(name, es.countP (entryToday now))]⟩) := by
  have hpe : procEntries now es =
      some (es.countP (entryInHour now), es.countP (entryToday now)) := by
    rw [procEntries, procEntriesAux_counts now es h]
    simp
  refine ⟨hpe, ?_, ?_, ?_⟩
  · intro e t hp hv
    constructor
    · simp only [entryInHour, hp, hv, Bool.true_and]
      constructor
      · intro hd
        have := of_decide_eq_true hd
        omega
      · intro hd
        exact decide_eq_true (by omega)
    · simp [entryToday, hp, hv]
  · intro e hp
    simp [entryInHour, entryToday, hp]
  · intro name
    simp [compute_stats, compute_stats_aux, processOutlet, hpe, dictInsert]

/-- C2, witness: a feed with one entry published at the reference instant
and one entry without a publish time reports counters (1, 1). -/
theorem C2_time_windows_witness :
    procEntries 0 [⟨true, some 0⟩, ⟨false, none⟩] =
      some (List.countP (entryInHour 0) [⟨true, some 0⟩, ⟨false, none⟩],
            List.countP (entryToday 0) [⟨true, some 0⟩, ⟨false, none⟩]) :=
  (C2_time_windows 0 [⟨true, some 0⟩, ⟨false, none⟩] (by decide)).1

/-! ## C3 — isolation of a failing outlet -/

/-- Removing an outlet whose processing raises from anywhere in the list
leaves the whole loop state unchanged: `except Exception: pass`. -/
lemma compute_stats_aux_skip (now : Int) (o : Outlet)
    (ho : processOutlet now o = none) (pre post : List Outlet) (s : Stats) :
    compute_stats_aux now (pre ++ o :: post) s =
      compute_stats_aux now (pre ++ post) s := by
  induction pre generalizing s with
  | nil => simp [compute_stats_aux, ho]
  | cons q pre2 ih =>
    simp only [List.cons_append, compute_stats_aux]
    cases processOutlet now q with
    | none => exact ih s
    | some r =>
      obtain ⟨ch, cd⟩ := r
      exact ih _

/-- C3, counterexample.  The claim also asserts that the failure is
*recorded alongside the statistics*.  It is not: aggregating a single
failing outlet produces a result identical to aggregating the empty outlet
list — the `Stats` value carries no error count, list or marker, so no
record of the failure exists in the output (`except Exception: pass`,
lines 126–127). -/
theorem C3_counterexample :
    compute_stats 0 [⟨"feedx", none⟩] = compute_stats 0 []
    ∧ compute_stats 0 [] = ⟨0, 0, []⟩ := by decide

/-- C3, amended: if one outlet's fetch or parse raises, `ComputeStats`
returns exactly the statistics of the remaining N−1 outlets — their hour
and today contributions and per-source entries unchanged — and, being a
total function, never raises; but the failure is silently discarded, not
recorded. -/
theorem C3_failure_isolation (now : Int) (pre post : List Outlet)
    (o : Outlet) (ho : processOutlet now o = none) :
    compute_stats now (pre ++ o :: post) = compute_stats now (pre ++ post) := by
  rw [compute_stats, compute_stats, compute_stats_aux_skip now o ho]

/-- C3, witness: one failing outlet among two leaves the other outlet's
statistics exactly as if the failing outlet were absent. -/
theorem C3_failure_isolation_witness :
    compute_stats 0 [⟨"a", some [⟨true, some 0⟩]⟩, ⟨"f", none⟩] =
      compute_stats 0 [⟨"a", some [⟨true, some 0⟩]⟩] :=
  C3_failure_isolation 0 [⟨"a", some [⟨true, some 0⟩]⟩] [] ⟨"f", none⟩ rfl

/-! ## C10 — an entry-level exception discards the whole outlet -/

/-- A list containing an entry whose publish value cannot be converted makes
the whole entry loop raise, whatever was already accumulated. -/
lemma procEntriesAux_raises (now : Int) (bad : Entry) (hb : bad.hasPub = true)
    (hv : bad.pubVal = none) (good rest : List Entry) (ch cd : Nat) :
    procEntriesAux now (good ++ bad :: rest) ch cd = none := by
  induction good generalizing ch cd with
  | nil => simp [procEntriesAux, hb, hv]
  | cons e g ih =>
    by_cases hp : e.hasPub
    · cases he : e.pubVal with
      | none => simp [procEntriesAux, hp, he]
      | some t => simp [procEntriesAux, hp, he, ih]
    · simp [procEntriesAux, hp, ih]

/-- If no outlet of the list carries the given media name, the loop never
assigns under that name. -/
lemma lastSourceCount_of_not_mem (now : Int) (name : String)
    (outlets : List Outlet) (h : ∀ o ∈ outlets, o.media_name ≠ name) :
    lastSourceCount now name outlets = none := by
  induction outlets with
  | nil => rfl
  | cons o rest ih =>
    simp only [lastSourceCount]
    rw [ih (fun x hx => h x (List.mem_cons_of_mem o hx))]
    simp [h o (List.mem_cons_self o rest)]

/-- C10, confirmed.  If any single entry of an outlet raises while being
processed (a `published_parsed` value that cannot be converted), the entire
outlet contributes nothing: the aggregate equals the aggregate with that
outlet removed (so its already-counted earlier entries are discarded and
every other outlet's contribution is untouched), and its media name —
assumed not shared with any other outlet — is absent from the per-source
mapping. -/
theorem C10_entry_exception_discards_outlet (now : Int)
    (pre post : List Outlet) (name : String) (good rest : List Entry)
    (bad : Entry) (hb : bad.hasPub = true) (hv : bad.pubVal = none)
    (hname : ∀ o ∈ pre ++ post, o.media_name ≠ name) :
    compute_stats now
        (pre ++ (⟨name, some (good ++ bad :: rest)⟩ : Outlet) :: post) =
      compute_stats now (pre ++ post)
    ∧ dictLookup name (compute_stats now
        (pre ++ (⟨name, some (good ++ bad :: rest)⟩ : Outlet) :: post)
        ).source_counts = none := by
  have ho : processOutlet now ⟨name, some (good ++ bad :: rest)⟩ = none := by
    simp [processOutlet, procEntries, procEntriesAux_raises now bad hb hv]
  have h1 : compute_stats now
      (pre ++ (⟨name, some (good ++ bad :: rest)⟩ : Outlet) :: post) =
      compute_stats now (pre ++ post) := by
    rw [compute_stats, compute_stats, compute_stats_aux_skip now _ ho]
  refine ⟨h1, ?_⟩
  rw [h1, compute_stats, dictLookup_compute_stats_aux,
    lastSourceCount_of_not_mem now name _ hname]
  rfl

/-- C10, witness: outlet `"x"` has one good entry (already counted when the
bad entry is reached) and one raising entry; it vanishes from the result,
whose statistics equal those of outlet `"a"` alone. -/
theorem C10_witness :
    compute_stats 0
        [⟨"a", some [⟨true, some 0⟩]⟩,
         ⟨"x", some [⟨true, some 0⟩, ⟨true, none⟩]⟩] =
      compute_stats 0 [⟨"a", some [⟨true, some 0⟩]⟩]
    ∧ dictLookup "x" (compute_stats 0
        [⟨"a", some [⟨true, some 0⟩]⟩,
         ⟨"x", some [⟨true, some 0⟩, ⟨true, none⟩]⟩]).source_counts = none :=
  C10_entry_exception_discards_outlet 0 [⟨"a", some [⟨true, some 0⟩]⟩] []
    "x" [⟨true, some 0⟩] [] ⟨true, none⟩ rfl rfl (by decide)

/-! ## C5 — a click outside every polygon -/

/-- C5, confirmed.  For a point contained in no boundary polygon the loop
finds nothing (`selected` stays `None`) and the guarded assignment
`if selected:` leaves the current selection exactly as it was. -/
theorem C5_outside_keeps_selection (feats : List Feature) (p : Pt)
    (st0 : Option String) (h : ∀ f ∈ feats, f.contains p = false) :
    resolvePoint feats p = none ∧ selectFromPoint feats st0 p = st0 := by
  have hf : feats.find? (fun f => f.contains p) = none := by
    rw [List.find?_eq_none]
    intro f hfm
    simp [h f hfm]
  exact ⟨by simp [resolvePoint, hf], by simp [selectFromPoint, resolvePoint, hf]⟩

/-- C5, witness: an open-ocean click with one non-containing feature loaded
resolves to nothing and keeps the previous selection. -/
theorem C5_outside_keeps_selection_witness :
    resolvePoint [⟨"Nowhere", fun _ => false⟩] (1, 2) = none
    ∧ selectFromPoint [⟨"Nowhere", fun _ => false⟩] (some "peru") (1, 2) =
        some "peru" :=
  C5_outside_keeps_selection [⟨"Nowhere", fun _ => false⟩] (1, 2)
    (some "peru")
    (by intro f hf; cases List.mem_singleton.mp hf; rfl)

/-! ## C6 — first containing polygon wins -/

/-- The scan of the feature list stops at the first feature containing the
point. -/
lemma find?_first_containing (p : Pt) (pre post : List Feature) (f : Feature)
    (hf : f.contains p = true) (hpre : ∀ g ∈ pre, g.contains p = false) :
    (pre ++ f :: post).find? (fun g => g.contains p) = some f := by
  induction pre with
  | nil => simp [List.find?_cons_of_pos, hf]
  | cons g pre2 ih =>
    have hg : g.contains p = false := hpre g (List.mem_cons_self g pre2)
    rw [List.cons_append, List.find?_cons_of_neg _ (by simp [hg])]
    exact ih (fun x hx => hpre x (List.mem_cons_of_mem g hx))

/-- C6, confirmed.  (i) For a point contained in at least one boundary
polygon, resolution returns the normalized name of the first containing
feature in dataset iteration order; (ii) for a point contained in exactly
one feature's polygon, resolution returns that feature's country key. -/
theorem C6_first_match :
    (∀ (p : Pt) (pre post : List Feature) (f : Feature),
        f.contains p = true → (∀ g ∈ pre, g.contains p = false) →
        resolvePoint (pre ++ f :: post) p = some (normalize_country f.name))
    ∧ (∀ (p : Pt) (feats : List Feature) (f : Feature),
        f ∈ feats → f.contains p = true →
        (∀ g ∈ feats, g.contains p = true → g = f) →
        resolvePoint feats p = some (normalize_country f.name)) := by
  constructor
  · intro p pre post f hf hpre
    rw [resolvePoint, find?_first_containing p pre post f hf hpre]
    rfl
  · intro p feats f hmem hf huniq
    induction feats with
    | nil => cases hmem
    | cons g rest ih =>
      by_cases hg : g.contains p = true
      · have hgf : g = f := huniq g (List.mem_cons_self g rest) hg
        subst hgf
        rw [resolvePoint, List.find?_cons_of_pos _ (by simp [hg])]
        rfl
      · have hf2 : f ∈ rest := by
          rcases List.mem_cons.mp hmem with hfg | hf3
          · exact absurd (hfg ▸ hf) hg
          · exact hf3
        have hrec := ih hf2 (fun x hx => huniq x (List.mem_cons_of_mem g hx))
        rw [resolvePoint, List.find?_cons_of_neg _ (by simp [hg])]
        exact hrec

/-- C6, witness: the first containing feature (`"France"`, preceded by a
non-containing `"Ocean"`) wins; a point inside exactly one polygon
(`"Chile"`) resolves to that country. -/
theorem C6_first_match_witness :
    resolvePoint [⟨"Ocean", fun _ => false⟩, ⟨"France", fun _ => true⟩]
        (0, 0) = some (normalize_country "France")
    ∧ resolvePoint [⟨"Chile", fun q => decide (q.1 = 5)⟩] (5, 0) =
        some (normalize_country "Chile") := by
  constructor
  · exact C6_first_match.1 (0, 0) [⟨"Ocean", fun _ => false⟩] []
      ⟨"France", fun _ => true⟩ rfl
      (by intro g hg; cases List.mem_singleton.mp hg; rfl)
  · exact C6_first_match.2 (5, 0) [⟨"Chile", fun q => decide (q.1 = 5)⟩]
      ⟨"Chile", fun q => decide (q.1 = 5)⟩ (List.mem_singleton.mpr rfl)
      (by decide) (fun g hg _ => List.mem_singleton.mp hg)

/-! ## C4 — reachable selection states -/

/-- C4, counterexample.  Lines 39–40 initialize the selection to `None`
(`Unselected`), not `Selected(defaultCountry)`; and a map click writes the
normalized boundary-feature name even when the outlet catalog (here empty)
does not know it. -/
theorem C4_counterexample :
    initial_selected_country = none
    ∧ selectFromPoint [⟨"France", fun _ => true⟩] initial_selected_country
        (0, 0) = some "france"
    ∧ ¬ "france" ∈ available_countries ([] : List Row) := by
  refine ⟨rfl, by decide, by simp [available_countries]⟩

/-- C4, amended: the initial state is `None` (unselected), and every
reachable selection is either `None` or `some k` where `k` is a catalog
country (written by the select box) or a normalized boundary-feature name
(written by a map click, with no catalog-membership check). -/
theorem C4_reachable_states (rows : List Row) (feats : List Feature)
    (st : Option String) (h : Reach rows feats st) :
    st = none ∨ ∃ k : String, st = some k ∧
      (k ∈ available_countries rows ∨ k ∈ boundary_names feats) := by
  induction h with
  | start => exact Or.inl rfl
  | explicit hc hr ih =>
    rename_i st0 choice
    right
    unfold select_explicit
    by_cases he : st0 = some choice
    · exact ⟨choice, by simp [he], Or.inl hc⟩
    · exact ⟨choice, by simp [he], Or.inl hc⟩
  | click hr ih =>
    rename_i st0 p
    unfold selectFromPoint
    cases hres : resolvePoint feats p with
    | none => exact ih
    | some k =>
      by_cases hk : k = ""
      · simpa [hk] using ih
      · right
        refine ⟨k, by simp [hk], Or.inr ?_⟩
        obtain ⟨f, hf, hfk⟩ : ∃ f, feats.find? (fun g => g.contains p) = some f
            ∧ normalize_country f.name = k := by
          unfold resolvePoint at hres
          cases hfind : feats.find? (fun g => g.contains p) with
          | none => rw [hfind] at hres; simp at hres
          | some f =>
            rw [hfind] at hres
            exact ⟨f, rfl, by simpa using hres⟩
        have hfm : f ∈ feats := List.mem_of_find?_eq_some hf
        exact hfk ▸ List.mem_map_of_mem _ hfm

/-- C4, witness: the initial state itself satisfies the reachable-state
characterization. -/
theorem C4_reachable_states_witness :
    (none : Option String) = none
    ∨ ∃ k : String, (none : Option String) = some k ∧
        (k ∈ available_countries ([] : List Row)
         ∨ k ∈ boundary_names ([] : List Feature)) :=
  C4_reachable_states [] [] none Reach.start

/-! ## C7 — presentation order of the per-source list -/

lemma insertByCount_perm (p : String × Nat) (l : List (String × Nat)) :
    (insertByCount p l).Perm (p :: l) := by
  induction l with
  | nil => exact List.Perm.refl _
  | cons q rest ih =>
    by_cases h : q.2 ≤ p.2
    · simp only [insertByCount, if_pos h]
      exact List.Perm.refl _
    · simp only [insertByCount, if_neg h]
      exact (ih.cons q).trans (List.Perm.swap p q rest)

lemma insertByCount_sorted (p : String × Nat) (l : List (String × Nat))
    (h : l.Pairwise (fun a b => b.2 ≤ a.2)) :
    (insertByCount p l).Pairwise (fun a b => b.2 ≤ a.2) := by
  induction l with
  | nil => simp [insertByCount]
  | cons q rest ih =>
    rcases List.pairwise_cons.mp h with ⟨hq, hrest⟩
    by_cases hc : q.2 ≤ p.2
    · simp only [insertByCount, if_pos hc]
      refine List.pairwise_cons.mpr ⟨?_, h⟩
      intro b hb
      rcases List.mem_cons.mp hb with rfl | hb2
      · exact hc
      · exact le_trans (hq b hb2) hc
    · simp only [insertByCount, if_neg hc]
      refine List.pairwise_cons.mpr ⟨?_, ih hrest⟩
      intro b hb
      rcases List.mem_cons.mp ((insertByCount_perm p rest).mem_iff.mp hb) with
        rfl | hb2
      · omega
      · exact hq b hb2

lemma sortByCountDesc_perm (l : List (String × Nat)) :
    (sortByCountDesc l).Perm l := by
  induction l with
  | nil => exact List.Perm.refl _
  | cons p rest ih =>
    exact (insertByCount_perm p (sortByCountDesc rest)).trans (ih.cons p)

lemma sortByCountDesc_sorted (l : List (String × Nat)) :
    (sortByCountDesc l).Pairwise (fun a b => b.2 ≤ a.2) := by
  induction l with
  | nil => simp [sortByCountDesc]
  | cons p rest ih => exact insertByCount_sorted p _ ih

/-- C7, counterexample.  Two outlets with media names `"b"` then `"a"` (in
catalog row order) each have today-count 1.  `sorted(..., key=lambda x:
-x[1])` (line 133) is stable with a count-only key, so the tie keeps dict
insertion order and the list is presented `b` before `a` — not the
name-ascending order `a`, `b` the claim requires; the order is therefore a
function of catalog row order, not of the counts and names alone. -/
theorem C7_counterexample :
    presentSources (compute_stats 0
      [⟨"b", some [⟨true, some 0⟩]⟩, ⟨"a", some [⟨true, some 0⟩]⟩]) =
      [("b", 1), ("a", 1)]
    ∧ presentSources (compute_stats 0
      [⟨"b", some [⟨true, some 0⟩]⟩, ⟨"a", some [⟨true, some 0⟩]⟩]) ≠
      [("a", 1), ("b", 1)] := by decide

/-- C7, amended: the per-source list is presented in today-count descending
order (every later entry has a count not exceeding any earlier one) and is a
permutation of the accumulated `source_counts`; ties between equal counts
keep dict insertion order — the outlet processing order — rather than
media-name ascending order. -/
theorem C7_presentation_order (now : Int) (outlets : List Outlet) :
    (presentSources (compute_stats now outlets)).Pairwise
      (fun a b => b.2 ≤ a.2)
    ∧ (presentSources (compute_stats now outlets)).Perm
        (compute_stats now outlets).source_counts :=
  ⟨sortByCountDesc_sorted _, sortByCountDesc_perm _⟩

/-! ## C8 — catalog loading -/

/-- C8, counterexample.  A row whose feed URL is missing — and even a row
with every cell missing — is ingested by `load_data` (lines 18–22) exactly
like any other row: the function is total, performs no validation, and no
`InvalidRecordError` (or any failure path) exists in the program. -/
theorem C8_counterexample :
    load_data [⟨some "m", some " Fr ", none⟩] =
      [⟨some "m", some "fr", none⟩]
    ∧ load_data [⟨none, none, none⟩] = [⟨none, none, none⟩] := by decide

/-- C8, amended: `load_data` never rejects a row — every input row,
including rows missing a feed URL or a country, appears in the output (the
row count is preserved), with its country cell normalized (stripped and
lowercased) when present. -/
theorem C8_no_validation (rows : List Row) :
    (load_data rows).length = rows.length
    ∧ ∀ r ∈ rows,
        ({ r with country := r.country.map normalize_country } : Row) ∈
          load_data rows := by
  refine ⟨by simp [load_data], ?_⟩
  intro r hr
  exact List.mem_map_of_mem _ hr

/-- C8, witness: the singleton row with a missing URL is ingested,
normalized. -/
theorem C8_no_validation_witness :
    (load_data [⟨some "m", some " Fr ", none⟩]).length = 1
    ∧ (⟨some "m", (some " Fr ").map normalize_country, none⟩ : Row) ∈
        load_data [⟨some "m", some " Fr ", none⟩] :=
  ⟨(C8_no_validation [⟨some "m", some " Fr ", none⟩]).1,
   (C8_no_validation [⟨some "m", some " Fr ", none⟩]).2
     ⟨some "m", some " Fr ", none⟩ (List.mem_singleton.mpr rfl)⟩

/-! ## C9 — centroid fallback -/

/-- C9, confirmed (against the spec-modelled `centroid`; the source itself
only fixes the fallback constant `[20, 0]`, line 43).  For a key absent from
the centroid table the query is total and returns exactly `(20, 0)`. -/
theorem C9_centroid_fallback (table : List (String × (Int × Int)))
    (k : String) (h : dictLookup k table = none) :
    centroid table k = (20, 0) := by
  unfold centroid
  rw [h]

/-- C9, witness: a one-entry table and an unknown key. -/
theorem C9_centroid_fallback_witness :
    centroid [("france", (46, 2))] "atlantis" = (20, 0) :=
  C9_centroid_fallback [("france", (46, 2))] "atlantis" (by decide)
